import Mathlib

/-!
Verification development for the flow-rosetta gateway core.

The definitions below are shallow embeddings of the repository's Go source:

* the fixed-point converter `UFix64ToUInt64String` (retriever package),
* the block-identifier resolver `Validator.Block` (validator package),
* the Cadence script generator (`scripts` package, including the
  `getStakedBalance` template and the mainnet custom-contract overrides),
* the execution-result normalizer `flatten` (retriever package).

Machine integers (`uint64`) are modelled as `Nat` with explicit `< 2 ^ 64`
bounds where they matter; fallible Go functions return `Except`/`Option`;
Go strings are modelled as `String` (with `List Char` views for parsing
lemmas); Go byte slices holding rendered script text are identified with
the strings they spell.  Behaviour that lives outside the repository
snapshot (the cadence fixed-point parser, the `getBalance` template source,
textual rendering of values) is modelled from the specification and marked
as such in the doc comments.
-/

namespace FlowRosetta


/-! ## Decimal digit strings

Helper machinery for the converter embedding: the numeric value of a digit
string, the canonical decimal rendering of a `Nat` (the embedding of Go's
`strconv.FormatUint(n, 10)`), and splitting a character list on `'.'` (the
embedding of Go's `strings.Split(s, ".")`). -/

/-- Numeric value of a decimal digit character (`'0'` maps to 0, ..., `'9'` to 9). -/
def charVal (c : Char) : Nat := c.toNat - 48

/-- The decimal digit character for `d < 10`. -/
def digitChar (d : Nat) : Char := Char.ofNat (48 + d)

/-- `c` is a decimal digit character. -/
def isDigitCh (c : Char) : Bool := 48 ≤ c.toNat && c.toNat ≤ 57

/-- Accumulating fold computing the numeric value of a digit list. -/
def digitsValAux (acc : Nat) : List Char → Nat
  | [] => acc
  | c :: cs => digitsValAux (acc * 10 + charVal c) cs

/-- Numeric value of a decimal digit list, most significant digit first. -/
def digitsVal (l : List Char) : Nat := digitsValAux 0 l

/-- `l` is a nonempty list of decimal digit characters. -/
def isDigits (l : List Char) : Bool := !l.isEmpty && l.all isDigitCh

/-- `l` is a canonical decimal numeral: digits only, and no leading zero
unless the numeral is exactly `"0"`. -/
def canonNumeral (l : List Char) : Bool :=
  isDigits l &&
    (match l with
     | '0' :: _ :: _ => false
     | _ => true)

/-- Fuelled most-significant-first decimal expansion of a positive `Nat`.
The fuel bounds the number of digits produced; 20 digits cover any `uint64`
value. -/
def toDecimalAux : Nat → Nat → List Char
  | 0, _ => []
  | fuel + 1, n => if n = 0 then [] else toDecimalAux fuel (n / 10) ++ [digitChar (n % 10)]

/-- Canonical decimal digits of a `Nat` below `10 ^ 20`. -/
def natToDigits (n : Nat) : List Char :=
  if n = 0 then ['0'] else toDecimalAux 20 n

/-- Embedding of Go's `strconv.FormatUint(n, 10)` for `uint64` values. -/
def formatNat (n : Nat) : String := String.mk (natToDigits n)

/-- Embedding of Go's `strings.Split(s, ".")` on the character list of `s`:
the maximal dot-free segments of the list, in order. -/
def splitDots : List Char → List (List Char)
  | [] => [[]]
  | c :: rest =>
    if c = '.' then [] :: splitDots rest
    else
      match splitDots rest with
      | [] => [[c]]
      | p :: ps => (c :: p) :: ps

/-- Left-pads a digit list with `'0'` up to width `w`. -/
def padZeros (w : Nat) (l : List Char) : List Char :=
  List.replicate (w - l.length) '0' ++ l

/-- Drops leading `'0'` characters, keeping the last character of an
all-zero list. -/
def stripZeros : List Char → List Char
  | [] => []
  | c :: cs => if c = '0' ∧ cs ≠ [] then stripZeros cs else c :: cs

/-! ## Fixed-point converter (retriever package) -/

/-- Modelled from the spec: the inner parser of `cadence.NewUFix64`, applied
to the segments of the input around the radix point.  The cadence library
backing `UFix64ToUInt64String` is not part of the repository snapshot; §4.4
specifies the converter "parses the input as an 8-decimal unsigned
fixed-point number; fails with a parse error if the string is not a valid
representation (wrong digit count, negative, non-numeric)".  A valid
representation is a canonical decimal numeral, a radix point, and exactly
eight decimal digits, whose minor-unit value fits in a `uint64`; the parsed
result is the value scaled by `10 ^ 8`. -/
def parseParts : List (List Char) → Except String Nat
  | [intPart, fracPart] =>
    if canonNumeral intPart ∧ isDigits fracPart ∧ fracPart.length = 8 then
      if digitsVal intPart * 100000000 + digitsVal fracPart < 2 ^ 64 then
        Except.ok (digitsVal intPart * 100000000 + digitsVal fracPart)
      else Except.error "invalid UFix64: value out of range"
    else Except.error "invalid UFix64: not a valid representation"
  | _ => Except.error "invalid UFix64: input must have a single radix point"

/-- Modelled from the spec: `cadence.NewUFix64` — split the input on the
radix point and parse the two parts (see `parseParts`). -/
def cadenceNewUFix64 (s : String) : Except String Nat :=
  parseParts (splitDots s.toList)

/-- Embedding of the retriever's `UFix64ToUInt64String`: parse the string as
a `UFix64`, then format the underlying `uint64` minor-unit value in base 10
(`strconv.FormatUint(ufix.ToGoValue().(uint64), 10)`). -/
def UFix64ToUInt64String (s : String) : Except String String :=
  match cadenceNewUFix64 s with
  | Except.error e => Except.error e
  | Except.ok ufix => Except.ok (formatNat ufix)

/-- Modelled from the spec: formatting a minor-unit value "back to 8-decimal
form" (§8) — the canonical integer part, a radix point, and the fractional
part left-padded to exactly eight digits. -/
def formatUFix64 (n : Nat) : String :=
  String.mk (natToDigits (n / 100000000) ++ '.' :: padZeros 8 (natToDigits (n % 100000000)))


/-! ## Block-identifier resolver (validator package)

`Validator.Block` extrapolates a partial rosetta block identifier to a full
`(height, block id)` pair against the chain-access collaborator, mirroring
the Go source line by line.  Flow block identifiers (32-byte hashes) are
modelled as their 64-character hexadecimal strings; `validBlockHash` is the
success condition of `flow.HexStringToIdentifier`.  Failures carry the same
kinds and diagnostic fields as the `failure` package values built in the
source; errors the Go code wraps with `fmt.Errorf` are modelled as
`ResolveError.internal`. -/

/-- A block header as seen through the access API: height and block
identifier (the 64-character lowercase hex rendering of the 32-byte id). -/
structure Header where
  height : Nat
  id : String

/-- The chain-access collaborator (§6), as the snapshot the three calls of
`Validator.Block` observe during one resolution. -/
structure AccessAPI where
  getLatestBlockHeader : Except String Header
  getBlockHeaderByID : String → Except String Header
  getBlockHeaderByHeight : Nat → Except String Header

/-- The validator: holds the access API it resolves against. -/
structure Validator where
  accessAPI : AccessAPI

/-- `identifier.Block`: optional index and hash, the empty string being the
absent hash. -/
structure BlockID where
  index : Option Nat
  hash : String

/-- The failure-description texts referenced by `Validator.Block`
(`blockInvalid`, `blockTooLow`, `blockTooHigh`, `blockMismatch`). -/
inductive DescKind
  | blockInvalid
  | blockTooLow
  | blockTooHigh
  | blockMismatch

/-- A named diagnostic field (`failure.WithString` / `failure.WithUint64`). -/
inductive DescField
  | fieldString (name value : String)
  | fieldNat (name : String) (value : Nat)

/-- `failure.Description`: a kind plus its ordered diagnostic fields. -/
structure Description where
  kind : DescKind
  fields : List DescField

/-- The errors `Validator.Block` returns: structured `failure.InvalidBlock`
and `failure.UnknownBlock` values, or a wrapped internal error
(`fmt.Errorf`). -/
inductive ResolveError
  | invalidBlock (d : Description)
  | unknownBlock (index : Nat) (hash : String) (d : Description)
  | internal (msg : String)

/-- Hexadecimal digit characters. -/
def isHexDigitCh (c : Char) : Bool :=
  (48 ≤ c.toNat && c.toNat ≤ 57) || (97 ≤ c.toNat && c.toNat ≤ 102)
    || (65 ≤ c.toNat && c.toNat ≤ 70)

/-- Success condition of `flow.HexStringToIdentifier`: a hex string
decoding to exactly 32 bytes. -/
def validBlockHash (s : String) : Bool :=
  s.length == 64 && s.toList.all isHexDigitCh

/-- The first known height; the source hard-codes `var first uint64 = 0`. -/
def firstKnownHeight : Nat := 0

/-- Embedding of the tail of `Validator.Block` (source lines 103-125): fetch
the canonical header at the resolved height, require a present hash to
match it, and convert the canonical id (`flow.HexStringToIdentifier` on
`header.ID.Hex()`, which fails only on a malformed id). -/
def Validator.blockFinish (v : Validator) (rosBlockID : BlockID) (idx : Nat) :
    Except ResolveError (Nat × String) :=
  match v.accessAPI.getBlockHeaderByHeight idx with
  | Except.error e => Except.error (ResolveError.internal ("could not get header: " ++ e))
  | Except.ok header =>
    if rosBlockID.hash ≠ "" ∧ rosBlockID.hash ≠ header.id then
      Except.error (ResolveError.invalidBlock
        ⟨DescKind.blockMismatch,
         [DescField.fieldNat "block_index" idx,
          DescField.fieldString "block_hash" rosBlockID.hash,
          DescField.fieldString "want_hash" header.id]⟩)
    else if validBlockHash header.id then Except.ok (header.height, header.id)
    else Except.error (ResolveError.internal "could not convert to identifier: invalid hex")

/-- Embedding of `Validator.Block`: resolve a partial block identifier to
an authoritative `(height, id)` pair, with the latest-block convention for
an empty identifier, hash syntax validation, and index bounds checks. -/
def Validator.Block (v : Validator) (rosBlockID : BlockID) :
    Except ResolveError (Nat × String) :=
  if rosBlockID.index = none ∧ rosBlockID.hash = "" then
    match v.accessAPI.getLatestBlockHeader with
    | Except.error e => Except.error (ResolveError.internal ("could not retrieve last: " ++ e))
    | Except.ok last => Except.ok (last.height, last.id)
  else if rosBlockID.hash ≠ "" ∧ ¬ validBlockHash rosBlockID.hash then
    Except.error (ResolveError.invalidBlock
      ⟨DescKind.blockInvalid, [DescField.fieldString "block_hash" rosBlockID.hash]⟩)
  else
    match rosBlockID.index with
    | some idx =>
      if idx < firstKnownHeight then
        Except.error (ResolveError.invalidBlock
          ⟨DescKind.blockTooLow,
           [DescField.fieldNat "block_index" idx,
            DescField.fieldNat "first_index" firstKnownHeight]⟩)
      else
        match v.accessAPI.getLatestBlockHeader with
        | Except.error e => Except.error (ResolveError.internal ("could not get last: " ++ e))
        | Except.ok last =>
          if idx > last.height then
            Except.error (ResolveError.unknownBlock idx rosBlockID.hash
              ⟨DescKind.blockTooHigh, [DescField.fieldNat "last_index" last.height]⟩)
          else v.blockFinish rosBlockID idx
    | none =>
      match v.accessAPI.getBlockHeaderByID rosBlockID.hash with
      | Except.error e =>
        Except.error (ResolveError.internal ("could not get height for block: " ++ e))
      | Except.ok h => v.blockFinish rosBlockID h.height


/-! ## Script generator (scripts package)

Templates are embedded as functions from the template data (chain params
and resolved token) to the rendered text: each `{{...}}` action of the Go
`text/template` source becomes a hole filled by string concatenation, and
the literal segments are carried over verbatim.  `template.Execute` cannot
fail on these fixed templates over total data, so rendering is total and
the only runtime failure mode is the token-registry lookup in
`Generator.compile`. -/

/-- Modelled from the spec: the token descriptor of the registry (§3) —
symbol, native resource/type name, contract address, and the
balance-capability path (the fields the templates reference as
`.Token.Type`, `.Token.Address`, `.Token.Balance`). -/
structure Token where
  symbol : String
  type : String
  address : String
  balance : String

/-- Modelled from the spec: the chain parameters (`dps.Params`, §3) — chain
identifier, well-known system contract addresses, and the token registry. -/
structure Params where
  chainID : String
  fungibleToken : String
  stakingTable : String
  tokens : List (String × Token)

/-- Embedding of a Go map lookup over an association list. -/
def lookupAssoc {α : Type} : List (String × α) → String → Option α
  | [], _ => none
  | (k, v) :: rest, key => if k = key then some v else lookupAssoc rest key

/-- Modelled from the spec: the built-in `getBalance` template (its source
file is not part of the snapshot).  Per §4.2/§8 the rendered text contains
the registered token's type, address and balance-capability path
substituted verbatim alongside the chain parameters. -/
def getBalanceTmpl (p : Params) (t : Token) : String :=
  "\nimport FungibleToken from 0x" ++ p.fungibleToken
    ++ "\nimport " ++ t.type ++ " from 0x" ++ t.address
    ++ "\n\npub fun main(account: Address): UFix64 \x7b\n\n    let vaultRef = getAccount(account)\n        .getCapability("
    ++ t.balance
    ++ ")\n        .borrow<&" ++ t.type
    ++ ".Vault\x7bFungibleToken.Balance\x7d>()\n        ?? panic(\"Could not borrow Balance reference to the Vault\")\n\n    return vaultRef.balance\n\x7d\n"

/-- Embedding of the `getStakedBalance` template (`get_staked_balance.go`),
literal segments carried over verbatim — including the final
`return vaultBalance + stakedBalance` line. -/
def getStakedBalanceTmpl (p : Params) (t : Token) : String :=
  "\n// This script reads the balance field of an account\x27s FlowToken Balance\n// and total balance of all staked nodes with their delegators\n\nimport FungibleToken from 0x"
    ++ p.fungibleToken
    ++ "\nimport " ++ t.type ++ " from 0x" ++ t.address
    ++ "\nimport FlowIDTableStaking from 0x" ++ p.stakingTable
    ++ "\n\n\npub fun main(account: Address): UFix64 \x7b\n\n    let vaultRef = getAccount(account)\n        .getCapability("
    ++ t.balance
    ++ ")\n        .borrow<&" ++ t.type
    ++ ".Vault\x7bFungibleToken.Balance\x7d>()\n        ?? panic(\"Could not borrow Balance reference to the Vault\")\n\n\tlet vaultBalance = vaultRef.balance\n\n\t// Sum up all tokens from all delegators and all stake\n\tlet allNodeIDs = FlowIDTableStaking.getNodeIDs()\n\n    var totalTokens: UFix64 = 0.0\n\n    for nodeID in allNodeIDs \x7b\n        let nodeInfo = FlowIDTableStaking.NodeInfo(nodeID: nodeID)\n        let delegatorsIDs = nodeInfo.delegators\n\n        totalTokens = totalTokens + nodeInfo.totalTokensInRecord()\n\n        for delegatorID in delegatorsIDs \x7b\n            let delegatorInfo = FlowIDTableStaking.DelegatorInfo(nodeID: nodeID, delegatorID: delegatorID)\n\n\n            totalTokens = totalTokens + delegatorInfo.totalTokensInRecord()\n        \x7d\n    \x7d\n\n    return vaultBalance + stakedBalance\n\x7d\n"

/-- Embedding of the mainnet override template for the FlowSwapPair
contract (`mainnetContracts`, key `c6c77b9f5c7a378f`). -/
def flowSwapPairTmpl (p : Params) (t : Token) : String :=
  "// This script reads the Flow balance of FlowSwapPair contract as well as standard Flow vault balance\n\t\timport FungibleToken from 0x"
    ++ p.fungibleToken
    ++ "\n\t\timport " ++ t.type ++ " from 0x" ++ t.address
    ++ "\n\t\timport FlowSwapPair from 0xc6c77b9f5c7a378f //parametrize address - does it exist on other chains?\n\t\tpub fun main(account: Address): UFix64 \x7b\n\t\t\tlet vaultRef = getAccount(account)\n\t\t\t\t.getCapability("
    ++ t.balance
    ++ ")\n\t\t\t\t.borrow<&" ++ t.type
    ++ ".Vault\x7bFungibleToken.Balance\x7d>()\n\t\t\t\t?? panic(\"Could not borrow Balance reference to the Vault\")\n\t\t\n\t\t\treturn vaultRef.balance + FlowSwapPair.getPoolAmounts().token1Amount\n\t\t\x7d\n\t"

/-- Embedding of the mainnet override template for the Versus contract
(`mainnetContracts`, key `d796ff17107bbff6`). -/
def versusTmpl (p : Params) (t : Token) : String :=
  "\n\t\timport FungibleToken from 0x" ++ p.fungibleToken
    ++ "\n\t\timport " ++ t.type ++ " from 0x" ++ t.address
    ++ "\n\t\timport Versus from 0xd796ff17107bbff6\n\t\t\n\t\tpub fun main(account: Address): UFix64 \x7b\n\t\t\n\t\t\t// default flow token\n\t\t\tlet vaultRef = getAccount(account)\n\t\t\t\t.getCapability("
    ++ t.balance
    ++ ")\n\t\t\t\t.borrow<&" ++ t.type
    ++ ".Vault\x7bFungibleToken.Balance\x7d>()\n\t\t\t\t?? panic(\"Could not borrow Balance reference to the Vault\")\n\t\t\n\t\t\n\t\t\t// sum of all public drops\n\t\t\tlet publicDrop = getAccount(0xd796ff17107bbff6)\n\t\t\t\t.getCapability(Versus.CollectionPublicPath)\n\t\t\t\t.borrow<&\x7bVersus.PublicDrop\x7d>()\n\t\t\t\t?? panic(\"Could not borrow Balance reference to the PublicDrop\")\n\t\t\n\t\t\tlet allStatuses = publicDrop.getAllStatuses()\n\t\t\n\t\t\tvar totalFlow = 0.0\n\t\t\n\t\t\tfor dropId in allStatuses.keys \x7b\n\t\t\t\tlet dropStatus = allStatuses[dropId]\n\t\t\t\ttotalFlow = totalFlow + (dropStatus?.uniquePrice ?? 0.0) + (dropStatus?.editionPrice ?? 0.0)\n\t\t\t\x7d\n\t\t\n\t\t\treturn totalFlow + vaultRef.balance\n\t\t\x7d\n\t"

/-- Embedding of the `mainnetContracts` table: contract address (hex) to
override template. -/
def mainnetContracts : List (String × (Params → Token → String)) :=
  [("c6c77b9f5c7a378f", flowSwapPairTmpl), ("d796ff17107bbff6", versusTmpl)]

/-- The two-level override index `NewGenerator` builds: chain identifier to
(address to template), populated for `flow.Mainnet` from
`mainnetContracts`. -/
def customTemplates : List (String × List (String × (Params → Token → String))) :=
  [("flow-mainnet", mainnetContracts)]

/-- The generator; its compiled templates are the fixed functions above, so
only the chain parameters remain as state. -/
structure Generator where
  params : Params

/-- Embedding of `Generator.compile`: look the symbol up in the token
registry and execute the template with the params/token context. -/
def Generator.compile (g : Generator) (tmpl : Params → Token → String) (symbol : String) :
    Except String String :=
  match lookupAssoc g.params.tokens symbol with
  | none => Except.error ("invalid token symbol (" ++ symbol ++ ")")
  | some token => Except.ok (tmpl g.params token)

/-- Embedding of `Generator.bytes`: compile and wrap any error with
"could not compile template". -/
def Generator.bytes (g : Generator) (tmpl : Params → Token → String) (symbol : String) :
    Except String String :=
  match g.compile tmpl symbol with
  | Except.error e => Except.error ("could not compile template: " ++ e)
  | Except.ok buf => Except.ok buf

/-- Embedding of `Generator.GetBalance`. -/
def Generator.GetBalance (g : Generator) (symbol : String) : Except String String :=
  g.bytes getBalanceTmpl symbol

/-- Embedding of `Generator.GetStakedBalance`. -/
def Generator.GetStakedBalance (g : Generator) (symbol : String) : Except String String :=
  g.bytes getStakedBalanceTmpl symbol

/-- Embedding of `Generator.Custom`, returning the Go result triple
`(found, script bytes, error)` with the absent values as `none`. -/
def Generator.Custom (g : Generator) (symbol chainID address : String) :
    Bool × Option String × Option String :=
  match lookupAssoc customTemplates chainID with
  | none => (false, none, none)
  | some chainCustom =>
    match lookupAssoc chainCustom address with
    | none => (false, none, none)
    | some tmpl =>
      match g.bytes tmpl symbol with
      | Except.ok b => (true, some b, none)
      | Except.error e => (true, none, some e)

/-- `p` occurs contiguously inside `l`. -/
def SubSeg {α : Type} (p l : List α) : Prop := ∃ pre post, l = pre ++ p ++ post

/-- Executable contiguous-substring test. -/
def containsSubL (p : List Char) : List Char → Bool
  | [] => p.isEmpty
  | c :: rest => p.isPrefixOf (c :: rest) || containsSubL p rest

def sampleToken : Token :=
  ⟨"FLOW", "FlowToken", "1654653399040a61", "/public/flowTokenBalance"⟩

def sampleParams : Params :=
  ⟨"flow-mainnet", "f233dcee88fe0abe", "8624b52f9ddcd04a", [("FLOW", sampleToken)]⟩

def sampleGenerator : Generator := ⟨sampleParams⟩


/-! ## Execution-result normalizer (retriever package)

`cadence.Value` is modelled as the closed variant the type switch of
`flatten` distinguishes: composite records (`cadence.Struct`, carrying the
declared field names of its `StructType` and the field values), key/value
mappings (`cadence.Dictionary`), ordered arrays (`cadence.Array`), and
opaque scalars carrying their `String()` rendering.  The Go function
builds `map[string]interface{}` / `[]interface{}` trees; these are
modelled by `Flat`, with mappings as association lists in insertion
order.  The source indexes the declared-name list by the field position
(`subStructNames[j]`), which panics when a record carries more field
values than its type declares names; that partiality is modelled by the
`Option` result of `flatten`, `none` being the panic. -/

/-- The closed variant of execution-result values distinguished by the type
switch in `flatten` (§9): records carry the declared field names of their
struct type and the field values, scalars carry their `String()`
rendering. -/
inductive CValue where
  | struct (fieldNames : List String) (fields : List CValue)
  | dict (pairs : List (CValue × CValue))
  | array (values : List CValue)
  | scalar (repr : String)

/-- The generic tree `flatten` produces (`map[string]interface\x7b\x7d`,
`[]interface\x7b\x7d`, or a string), with mappings as association lists in
insertion order. -/
inductive Flat where
  | str (s : String)
  | map (entries : List (String × Flat))
  | list (items : List Flat)

/-- Modelled: Go's `strconv.Unquote` (standard library, outside the
snapshot) restricted to escape-free double-quoted literals — the shape the
normalizer meets when stripping quotes from a cadence string rendering.
The claims depend only on its totality as a `String → Option String`
function. -/
def unquote (s : String) : Option String :=
  match s.data with
  | '"' :: rest =>
    if rest ≠ [] ∧ rest.getLast? = some '"' ∧ ∀ c ∈ rest.dropLast, c ≠ '"' ∧ c ≠ '\\'
    then some (String.mk rest.dropLast)
    else none
  | _ => none

mutual
/-- Modelled from the spec: the textual representation of a value (the
external `String()` method the dictionary branch of `flatten` calls on
keys, §4.3).  A scalar renders as its stored representation; composites
get a simple parenthesised rendering (the claims do not depend on the
exact text for composites). -/
def keyRepr : CValue → String
  | .scalar r => r
  | .struct _ fs => "(" ++ keyReprList fs ++ ")"
  | .dict ps => "(" ++ keyReprPairs ps ++ ")"
  | .array vs => "[" ++ keyReprList vs ++ "]"
def keyReprList : List CValue → String
  | [] => ""
  | v :: vs => keyRepr v ++ " " ++ keyReprList vs
def keyReprPairs : List (CValue × CValue) → String
  | [] => ""
  | (k, v) :: ps => keyRepr k ++ ": " ++ keyRepr v ++ " " ++ keyReprPairs ps
end

mutual
/-- Embedding of the retriever's `flatten`.  The struct branch pairs the
j-th field value with the j-th declared name, so a record with more field
values than declared names yields `none` (the index-out-of-range panic of
the Go code); all other shapes are total. -/
def flatten : CValue → Option Flat
  | .struct names fields => (flattenFields names fields).map Flat.map
  | .dict pairs => (flattenPairs pairs).map Flat.map
  | .array values => (flattenElems values).map Flat.list
  | .scalar r =>
    match unquote r with
    | some u => some (Flat.str u)
    | none => some (Flat.str r)
def flattenFields : List String → List CValue → Option (List (String × Flat))
  | _, [] => some []
  | [], _ :: _ => none
  | n :: ns, f :: fs =>
    match flatten f, flattenFields ns fs with
    | some v, some rest => some ((n, v) :: rest)
    | _, _ => none
def flattenPairs : List (CValue × CValue) → Option (List (String × Flat))
  | [] => some []
  | (k, v) :: ps =>
    match flatten v, flattenPairs ps with
    | some fv, some rest => some ((keyRepr k, fv) :: rest)
    | _, _ => none
def flattenElems : List CValue → Option (List Flat)
  | [] => some []
  | v :: vs =>
    match flatten v, flattenElems vs with
    | some fv, some rest => some (fv :: rest)
    | _, _ => none
end

mutual
/-- The execution-result invariant: every composite record carries at most
as many field values as its struct type declares field names.  Values
decoded from cadence always satisfy it (their field lists match their
types). -/
def covered : CValue → Bool
  | .struct names fields => (fields.length ≤ names.length : Bool) && coveredList fields
  | .dict pairs => coveredPairs pairs
  | .array values => coveredList values
  | .scalar _ => true
def coveredList : List CValue → Bool
  | [] => true
  | v :: vs => covered v && coveredList vs
def coveredPairs : List (CValue × CValue) → Bool
  | [] => true
  | (_, v) :: ps => covered v && coveredPairs ps
end

mutual
/-- Follows the spec's words (§4.3) for comparison with `flatten`: a total
normalizer sending records to name-keyed mappings, mappings to mappings
keyed by the key's textual representation, arrays to lists in source
order, and scalars to their unquoted-or-raw textual representation. -/
def flattenSpec : CValue → Flat
  | .struct names fields => Flat.map (flattenSpecFields names fields)
  | .dict pairs => Flat.map (flattenSpecPairs pairs)
  | .array values => Flat.list (flattenSpecElems values)
  | .scalar r =>
    match unquote r with
    | some u => Flat.str u
    | none => Flat.str r
def flattenSpecFields : List String → List CValue → List (String × Flat)
  | _, [] => []
  | [], _ :: _ => []
  | n :: ns, f :: fs => (n, flattenSpec f) :: flattenSpecFields ns fs
def flattenSpecPairs : List (CValue × CValue) → List (String × Flat)
  | [] => []
  | (k, v) :: ps => (keyRepr k, flattenSpec v) :: flattenSpecPairs ps
def flattenSpecElems : List CValue → List Flat
  | [] => []
  | v :: vs => flattenSpec v :: flattenSpecElems vs
end


/-! ## Concrete fixtures used by the witnesses -/

/-- A 64-character hex id used by the witnesses. -/
def sampleHash : String := String.mk (List.replicate 64 'a')

/-- A second, different 64-character hex id. -/
def sampleHashB : String := String.mk (List.replicate 64 'b')

/-- A concrete chain snapshot: head at height 5 with id `sampleHash`, and a
header with id `sampleHashB` at height 3. -/
def sampleAPI : AccessAPI :=
  { getLatestBlockHeader := Except.ok ⟨5, sampleHash⟩
    getBlockHeaderByID := fun _ => Except.error "not found"
    getBlockHeaderByHeight := fun h =>
      if h = 3 then Except.ok ⟨3, sampleHashB⟩
      else if h = 5 then Except.ok ⟨5, sampleHash⟩
      else Except.error "not found" }

def sampleValidator : Validator := ⟨sampleAPI⟩
/-! ## Decimal digit lemmas -/

theorem digitsValAux_nil (acc : Nat) : digitsValAux acc [] = acc := rfl

theorem digitsValAux_cons (acc : Nat) (c : Char) (cs : List Char) :
    digitsValAux acc (c :: cs) = digitsValAux (acc * 10 + charVal c) cs := rfl

theorem toDecimalAux_succ (fuel n : Nat) :
    toDecimalAux (fuel + 1) n
      = if n = 0 then [] else toDecimalAux fuel (n / 10) ++ [digitChar (n % 10)] := rfl

theorem stripZeros_cons (c : Char) (cs : List Char) :
    stripZeros (c :: cs) = if c = '0' ∧ cs ≠ [] then stripZeros cs else c :: cs := rfl

theorem charVal_le_nine {c : Char} (h : isDigitCh c = true) : charVal c ≤ 9 := by
  simp [isDigitCh] at h; unfold charVal; omega

theorem digitChar_charVal {c : Char} (h : isDigitCh c = true) : digitChar (charVal c) = c := by
  simp [isDigitCh] at h
  have heq : 48 + charVal c = c.toNat := by unfold charVal; omega
  rw [digitChar, heq, Char.ofNat_toNat]

theorem charVal_pos {c : Char} (h : isDigitCh c = true) (hne : c ≠ '0') : 1 ≤ charVal c := by
  simp [isDigitCh] at h
  have h48 : c.toNat ≠ 48 := by
    intro heq
    apply hne
    have hc : c = Char.ofNat c.toNat := (Char.ofNat_toNat c).symm
    rw [heq] at hc
    rw [hc]
  unfold charVal; omega

theorem digitsValAux_le (acc : Nat) (l : List Char) :
    acc * 10 ^ l.length ≤ digitsValAux acc l := by
  induction l generalizing acc with
  | nil => rw [digitsValAux_nil]; simp
  | cons c cs ih =>
    calc acc * 10 ^ (c :: cs).length = (acc * 10) * 10 ^ cs.length := by
          simp [List.length_cons, pow_succ]; ring
    _ ≤ (acc * 10 + charVal c) * 10 ^ cs.length := by gcongr; omega
    _ ≤ digitsValAux (acc * 10 + charVal c) cs := ih _
    _ = digitsValAux acc (c :: cs) := (digitsValAux_cons acc c cs).symm

theorem digitsValAux_lt (acc : Nat) (l : List Char) (h : ∀ c ∈ l, isDigitCh c = true) :
    digitsValAux acc l < (acc + 1) * 10 ^ l.length := by
  induction l generalizing acc with
  | nil => rw [digitsValAux_nil]; simp
  | cons c cs ih =>
    have hc := charVal_le_nine (h c (by simp))
    have hcs : ∀ x ∈ cs, isDigitCh x = true := fun x hx => h x (by simp [hx])
    calc digitsValAux acc (c :: cs) = digitsValAux (acc * 10 + charVal c) cs :=
          digitsValAux_cons acc c cs
    _ < (acc * 10 + charVal c + 1) * 10 ^ cs.length := ih _ hcs
    _ ≤ ((acc + 1) * 10) * 10 ^ cs.length := by gcongr; omega
    _ = (acc + 1) * 10 ^ (c :: cs).length := by simp [List.length_cons, pow_succ]; ring

theorem digitsVal_lt (l : List Char) (h : ∀ c ∈ l, isDigitCh c = true) :
    digitsVal l < 10 ^ l.length := by
  have h1 := digitsValAux_lt 0 l h
  simpa [digitsVal] using h1

theorem digitsVal_cons_pos (c : Char) (cs : List Char) (hd : isDigitCh c = true)
    (hne : c ≠ '0') : 10 ^ cs.length ≤ digitsVal (c :: cs) := by
  have h1 : 1 ≤ charVal c := charVal_pos hd hne
  have heq : digitsVal (c :: cs) = digitsValAux (charVal c) cs := by
    rw [digitsVal, digitsValAux_cons]; norm_num
  rw [heq]
  calc 10 ^ cs.length = 1 * 10 ^ cs.length := by ring
  _ ≤ charVal c * 10 ^ cs.length := by gcongr
  _ ≤ digitsValAux (charVal c) cs := digitsValAux_le _ _

theorem digitsVal_append_singleton (l : List Char) (c : Char) :
    digitsVal (l ++ [c]) = 10 * digitsVal l + charVal c := by
  have aux : ∀ (m : List Char) (acc : Nat),
      digitsValAux acc (m ++ [c]) = 10 * digitsValAux acc m + charVal c := by
    intro m
    induction m with
    | nil => intro acc; simp [digitsValAux_nil, digitsValAux_cons]; ring
    | cons x xs ih =>
      intro acc
      rw [List.cons_append, digitsValAux_cons, ih, digitsValAux_cons]
  rw [digitsVal, digitsVal, aux]

theorem toDecimalAux_zero (f : Nat) : toDecimalAux f 0 = [] := by
  cases f with
  | zero => rfl
  | succ f => rw [toDecimalAux_succ]; simp

theorem toDecimalAux_digits (l : List Char) (hdig : ∀ c ∈ l, isDigitCh c = true)
    (hne : l ≠ []) (hhead : l.head? ≠ some '0') :
    ∀ fuel, l.length ≤ fuel → toDecimalAux fuel (digitsVal l) = l := by
  induction l using List.reverseRecOn with
  | nil => exact absurd rfl hne
  | append_singleton l c ih =>
    intro fuel hfuel
    cases l with
    | nil =>
      have hc : isDigitCh c = true := hdig c (by simp)
      have hcne : c ≠ '0' := by
        intro h; rw [h] at hhead; simp at hhead
      have h1 : 1 ≤ charVal c := charVal_pos hc hcne
      have h9 : charVal c ≤ 9 := charVal_le_nine hc
      obtain ⟨f, rfl⟩ : ∃ f, fuel = f + 1 := ⟨fuel - 1, by simp at hfuel; omega⟩
      simp only [List.nil_append] at *
      have hv : digitsVal [c] = charVal c := by
        rw [digitsVal, digitsValAux_cons, digitsValAux_nil]; ring
      rw [hv, toDecimalAux_succ]
      have hnz : ¬ (charVal c = 0) := by omega
      simp only [hnz, if_false]
      rw [Nat.div_eq_of_lt (by omega), Nat.mod_eq_of_lt (by omega)]
      rw [toDecimalAux_zero, digitChar_charVal hc]
      rfl
    | cons x xs =>
      have hdig' : ∀ a ∈ x :: xs, isDigitCh a = true := by
        intro a ha
        apply hdig
        simp only [List.cons_append, List.mem_cons, List.mem_append] at ha ⊢
        tauto
      have hc : isDigitCh c = true := hdig c (by simp)
      have hhead' : (x :: xs).head? ≠ some '0' := by
        simp only [List.cons_append, List.head?_cons] at hhead ⊢
        exact hhead
      have hxne : x ≠ '0' := by simpa using hhead'
      have hx : isDigitCh x = true := hdig' x (by simp)
      have hpos : 1 ≤ digitsVal (x :: xs) := by
        have h1 := digitsVal_cons_pos x xs hx hxne
        have h10 : (1:Nat) ≤ 10 ^ xs.length := Nat.one_le_pow _ _ (by norm_num)
        omega
      obtain ⟨f, rfl⟩ : ∃ f, fuel = f + 1 := ⟨fuel - 1, by simp at hfuel; omega⟩
      have hlen : (x :: xs).length ≤ f := by
        simp only [List.cons_append, List.length_cons, List.length_append,
          List.length_singleton] at hfuel ⊢
        omega
      have h9 : charVal c ≤ 9 := charVal_le_nine hc
      rw [digitsVal_append_singleton, toDecimalAux_succ]
      have hnz : ¬ (10 * digitsVal (x :: xs) + charVal c = 0) := by omega
      simp only [hnz, if_false]
      have hdiv : (10 * digitsVal (x :: xs) + charVal c) / 10 = digitsVal (x :: xs) := by
        rw [Nat.mul_add_div (by norm_num), Nat.div_eq_of_lt (by omega)]
        omega
      have hmod : (10 * digitsVal (x :: xs) + charVal c) % 10 = charVal c := by
        rw [Nat.mul_add_mod]
        exact Nat.mod_eq_of_lt (by omega)
      rw [hdiv, hmod, ih hdig' (by simp) hhead' f hlen, digitChar_charVal hc]

theorem stripZeros_sub (l : List Char) :
    ∃ k, l = List.replicate k '0' ++ stripZeros l := by
  induction l with
  | nil => exact ⟨0, rfl⟩
  | cons c cs ih =>
    by_cases h : c = '0' ∧ cs ≠ []
    · obtain ⟨k, hk⟩ := ih
      refine ⟨k + 1, ?_⟩
      rw [stripZeros_cons, if_pos h, List.replicate_succ, List.cons_append, ← hk, h.1]
    · exact ⟨0, by rw [stripZeros_cons, if_neg h]; rfl⟩

theorem stripZeros_ne_nil {l : List Char} (h : l ≠ []) : stripZeros l ≠ [] := by
  induction l with
  | nil => exact absurd rfl h
  | cons c cs ih =>
    rw [stripZeros_cons]
    by_cases hc : c = '0' ∧ cs ≠ []
    · rw [if_pos hc]; exact ih hc.2
    · rw [if_neg hc]; simp

theorem stripZeros_head {l : List Char} :
    stripZeros l = ['0'] ∨ (stripZeros l).head? ≠ some '0' := by
  induction l with
  | nil => right; simp [stripZeros]
  | cons c cs ih =>
    rw [stripZeros_cons]
    by_cases hc : c = '0' ∧ cs ≠ []
    · rw [if_pos hc]; exact ih
    · rw [if_neg hc]
      by_cases hz : c = '0'
      · left
        have : cs = [] := by tauto
        rw [hz, this]
      · right; simp [hz]

theorem stripZeros_mem {l : List Char} {c : Char} (h : c ∈ stripZeros l) : c ∈ l := by
  induction l with
  | nil => simp [stripZeros] at h
  | cons x xs ih =>
    rw [stripZeros_cons] at h
    by_cases hc : x = '0' ∧ xs ≠ []
    · rw [if_pos hc] at h; simp [ih h]
    · rw [if_neg hc] at h; exact h

theorem digitsVal_replicate_zero (k : Nat) (m : List Char) :
    digitsVal (List.replicate k '0' ++ m) = digitsVal m := by
  induction k with
  | zero => simp
  | succ k ih =>
    rw [List.replicate_succ, List.cons_append, digitsVal, digitsValAux_cons]
    have hz : charVal '0' = 0 := rfl
    rw [hz]
    simpa [digitsVal] using ih

theorem padZeros_digitsVal (l : List Char) (hdig : ∀ c ∈ l, isDigitCh c = true)
    (hlen : l.length = 8) : padZeros 8 (natToDigits (digitsVal l)) = l := by
  obtain ⟨k, hk⟩ := stripZeros_sub l
  have hne : l ≠ [] := by intro h; rw [h] at hlen; simp at hlen
  have hsne : stripZeros l ≠ [] := stripZeros_ne_nil hne
  have hval : digitsVal l = digitsVal (stripZeros l) := by
    conv_lhs => rw [hk]
    exact digitsVal_replicate_zero _ _
  have hsdig : ∀ c ∈ stripZeros l, isDigitCh c = true := fun c hc => hdig c (stripZeros_mem hc)
  have hklen : k + (stripZeros l).length = 8 := by
    have := congrArg List.length hk
    simp at this
    omega
  rcases stripZeros_head (l := l) with hz | hz
  · -- all-zero tail: value is 0
    rw [hval, hz]
    have h0 : digitsVal ['0'] = 0 := rfl
    rw [h0]
    have : natToDigits 0 = ['0'] := rfl
    rw [this]
    rw [hz] at hklen
    simp at hklen
    rw [padZeros, hk, hz]
    simp [hklen]
  · -- canonical nonzero numeral
    have hlen20 : (stripZeros l).length ≤ 20 := by omega
    have hdec : toDecimalAux 20 (digitsVal (stripZeros l)) = stripZeros l :=
      toDecimalAux_digits (stripZeros l) hsdig hsne hz 20 hlen20
    have hpos : 1 ≤ digitsVal (stripZeros l) := by
      obtain ⟨x, xs, hxx⟩ : ∃ x xs, stripZeros l = x :: xs := by
        cases hsz : stripZeros l with
        | nil => exact absurd hsz hsne
        | cons x xs => exact ⟨x, xs, rfl⟩
      have hxd : isDigitCh x = true := hsdig x (by rw [hxx]; simp)
      have hxne : x ≠ '0' := by
        rw [hxx] at hz; simpa using hz
      have := digitsVal_cons_pos x xs hxd hxne
      have h10 : (1:Nat) ≤ 10 ^ xs.length := Nat.one_le_pow _ _ (by norm_num)
      rw [hxx]
      omega
    rw [hval, natToDigits, if_neg (by omega), hdec, padZeros]
    conv_rhs => rw [hk]
    congr 1
    congr 1
    omega

theorem splitDots_cons (c : Char) (rest : List Char) :
    splitDots (c :: rest)
      = if c = '.' then [] :: splitDots rest
        else
          match splitDots rest with
          | [] => [[c]]
          | p :: ps => (c :: p) :: ps := rfl

theorem splitDots_ne_nil (l : List Char) : splitDots l ≠ [] := by
  cases l with
  | nil => simp [splitDots]
  | cons c rest =>
    rw [splitDots_cons]
    by_cases hc : c = '.'
    · simp [hc]
    · rw [if_neg hc]
      cases splitDots rest <;> simp

theorem splitDots_single {l x : List Char} (h : splitDots l = [x]) : l = x := by
  induction l generalizing x with
  | nil =>
    rw [show splitDots [] = [[]] from rfl] at h
    simp only [List.cons.injEq, and_true] at h
    exact h
  | cons c rest ih =>
    rw [splitDots_cons] at h
    by_cases hc : c = '.'
    · rw [if_pos hc] at h
      injection h with h1 h2
      exact absurd h2 (splitDots_ne_nil rest)
    · rw [if_neg hc] at h
      cases hh : splitDots rest with
      | nil => exact absurd hh (splitDots_ne_nil rest)
      | cons p ps =>
        rw [hh] at h
        injection h with h1 h2
        rw [h2] at hh
        rw [ih hh]
        exact h1

theorem splitDots_pair {l a b : List Char} (h : splitDots l = [a, b]) :
    l = a ++ '.' :: b := by
  induction l generalizing a b with
  | nil =>
    rw [show splitDots [] = [[]] from rfl] at h
    simp at h
  | cons c rest ih =>
    rw [splitDots_cons] at h
    by_cases hc : c = '.'
    · rw [if_pos hc] at h
      injection h with h1 h2
      have h4 : rest = b := splitDots_single h2
      rw [← h1, hc, h4]
      rfl
    · rw [if_neg hc] at h
      cases hh : splitDots rest with
      | nil => exact absurd hh (splitDots_ne_nil rest)
      | cons p ps =>
        rw [hh] at h
        injection h with h1 h2
        rw [h2] at hh
        rw [← h1, ih hh]
        rfl

theorem splitDots_no_dot {l : List Char} (h : '.' ∉ l) : splitDots l = [l] := by
  induction l with
  | nil => rfl
  | cons c rest ih =>
    have hc : c ≠ '.' := by intro hcc; exact h (by simp [hcc])
    have hr : '.' ∉ rest := fun hm => h (by simp [hm])
    rw [splitDots_cons, if_neg hc, ih hr]

theorem splitDots_sep {a b : List Char} (ha : '.' ∉ a) (hb : '.' ∉ b) :
    splitDots (a ++ '.' :: b) = [a, b] := by
  induction a with
  | nil =>
    simp only [List.nil_append]
    rw [splitDots_cons, if_pos rfl, splitDots_no_dot hb]
  | cons c cs ih =>
    have hc : c ≠ '.' := fun hcc => ha (by simp [hcc])
    have hcs : '.' ∉ cs := fun hm => ha (by simp [hm])
    rw [List.cons_append, splitDots_cons, if_neg hc, ih hcs]

/-! ## Fixed-point converter: claims C1 and C4 -/

theorem isDigits_mem {l : List Char} (h : isDigits l = true) : ∀ c ∈ l, isDigitCh c = true := by
  simp [isDigits, List.all_eq_true] at h
  exact h.2

/-- C1: for every input string that is not a valid 8-decimal unsigned
fixed-point representation — wrong fractional digit count (such as
`"1.0"`), negative (such as `"-1.00000000"`, whose `'-'` is neither a
digit nor the radix point), or non-numeric — `UFix64ToUInt64String`
(`ToMinorUnits`) returns an error and no integer string.  The first
conjunct covers any fractional part whose digit count differs from 8; the
second covers any input containing a character that is neither a decimal
digit nor the radix point. -/
theorem toMinorUnits_rejects_malformed :
    (∀ a b : List Char, '.' ∉ a → '.' ∉ b → b.length ≠ 8 →
      ∃ e, UFix64ToUInt64String (String.mk (a ++ '.' :: b)) = Except.error e) ∧
    (∀ (s : String), ∀ c ∈ s.toList, isDigitCh c = false → c ≠ '.' →
      ∃ e, UFix64ToUInt64String s = Except.error e) := by
  constructor
  · intro a b ha hb h8
    have hsp : splitDots (String.mk (a ++ '.' :: b)).toList = [a, b] := by
      rw [show (String.mk (a ++ '.' :: b)).toList = a ++ '.' :: b from rfl]
      exact splitDots_sep ha hb
    have hcond : ¬ (canonNumeral a = true ∧ isDigits b = true ∧ b.length = 8) := by
      intro hcon; exact h8 hcon.2.2
    rw [UFix64ToUInt64String, cadenceNewUFix64, hsp]
    rw [show parseParts [a, b]
        = if canonNumeral a ∧ isDigits b ∧ b.length = 8 then
            if digitsVal a * 100000000 + digitsVal b < 2 ^ 64 then
              Except.ok (digitsVal a * 100000000 + digitsVal b)
            else Except.error "invalid UFix64: value out of range"
          else Except.error "invalid UFix64: not a valid representation" from rfl]
    rw [if_neg hcond]
    exact ⟨_, rfl⟩
  · intro s c hmem hnd hndot
    rcases hsp : splitDots s.toList with _ | ⟨a, _ | ⟨b, _ | ⟨x, rest⟩⟩⟩
    · exact absurd hsp (splitDots_ne_nil _)
    · rw [UFix64ToUInt64String, cadenceNewUFix64, hsp]
      exact ⟨_, rfl⟩
    · -- exactly two parts: the bad character must be inside one of them
      have hdecomp : s.toList = a ++ '.' :: b := splitDots_pair hsp
      rw [hdecomp] at hmem
      have hcin : c ∈ a ∨ c ∈ b := by
        simp only [List.mem_append, List.mem_cons] at hmem
        rcases hmem with h | h | h
        · exact Or.inl h
        · exact absurd h hndot
        · exact Or.inr h
      have hcond : ¬ (canonNumeral a = true ∧ isDigits b = true ∧ b.length = 8) := by
        rintro ⟨hca, hdb, _⟩
        rcases hcin with h | h
        · have : isDigits a = true := by
            simp [canonNumeral] at hca; exact hca.1
          have := isDigits_mem this c h
          rw [hnd] at this; exact absurd this (by simp)
        · have := isDigits_mem hdb c h
          rw [hnd] at this; exact absurd this (by simp)
      rw [UFix64ToUInt64String, cadenceNewUFix64, hsp]
      rw [show parseParts [a, b]
          = if canonNumeral a ∧ isDigits b ∧ b.length = 8 then
              if digitsVal a * 100000000 + digitsVal b < 2 ^ 64 then
                Except.ok (digitsVal a * 100000000 + digitsVal b)
              else Except.error "invalid UFix64: value out of range"
            else Except.error "invalid UFix64: not a valid representation" from rfl]
      rw [if_neg hcond]
      exact ⟨_, rfl⟩
    · rw [UFix64ToUInt64String, cadenceNewUFix64, hsp]
      exact ⟨_, rfl⟩

/-- C4: for every valid 8-decimal non-negative fixed-point input `s` (any
string the parser accepts, with value `n` = integer value times `10 ^ 8`),
`UFix64ToUInt64String` (`ToMinorUnits`) returns exactly `n` as a base-10
string with no rounding, and formatting `n` back to 8-decimal form
reproduces `s`. -/
theorem toMinorUnits_roundtrip (s : String) (n : Nat)
    (h : cadenceNewUFix64 s = Except.ok n) :
    UFix64ToUInt64String s = Except.ok (formatNat n) ∧ formatUFix64 n = s := by
  constructor
  · rw [UFix64ToUInt64String, h]
  · rcases hsp : splitDots s.toList with _ | ⟨a, _ | ⟨b, _ | ⟨x, rest⟩⟩⟩
    · exact absurd hsp (splitDots_ne_nil _)
    · rw [cadenceNewUFix64, hsp] at h; exact absurd h (by simp [parseParts])
    · rw [cadenceNewUFix64, hsp] at h
      rw [show parseParts [a, b]
          = if canonNumeral a ∧ isDigits b ∧ b.length = 8 then
              if digitsVal a * 100000000 + digitsVal b < 2 ^ 64 then
                Except.ok (digitsVal a * 100000000 + digitsVal b)
              else Except.error "invalid UFix64: value out of range"
            else Except.error "invalid UFix64: not a valid representation" from rfl] at h
      by_cases h1 : canonNumeral a = true ∧ isDigits b = true ∧ b.length = 8
      case neg => rw [if_neg h1] at h; exact absurd h (by simp)
      rw [if_pos h1] at h
      by_cases h2 : digitsVal a * 100000000 + digitsVal b < 2 ^ 64
      case neg => rw [if_neg h2] at h; exact absurd h (by simp)
      rw [if_pos h2] at h
      injection h with hn
      obtain ⟨hca, hdb, hb8⟩ := h1
      have hdigA : ∀ c ∈ a, isDigitCh c = true := by
        have : isDigits a = true := by simp [canonNumeral] at hca; exact hca.1
        exact isDigits_mem this
      have haneq : a ≠ [] := by
        have : isDigits a = true := by simp [canonNumeral] at hca; exact hca.1
        simp [isDigits] at this
        intro hcon; rw [hcon] at this; simp at this
      have hdigB : ∀ c ∈ b, isDigitCh c = true := isDigits_mem hdb
      have hblt : digitsVal b < 100000000 := by
        have := digitsVal_lt b hdigB
        rw [hb8] at this
        norm_num at this
        exact this
      have hdiv : n / 100000000 = digitsVal a := by
        rw [← hn, Nat.mul_comm, Nat.mul_add_div (by norm_num),
          Nat.div_eq_of_lt hblt]
        omega
      have hmod : n % 100000000 = digitsVal b := by
        rw [← hn, Nat.mul_comm, Nat.mul_add_mod]
        exact Nat.mod_eq_of_lt hblt
      have hfracpad : padZeros 8 (natToDigits (digitsVal b)) = b :=
        padZeros_digitsVal b hdigB hb8
      have hintpart : natToDigits (digitsVal a) = a := by
        cases ha : a with
        | nil => exact absurd ha haneq
        | cons x xs =>
          by_cases hx0 : x = '0'
          · -- canonical zero: must be exactly "0"
            have hxs : xs = [] := by
              cases hxs : xs with
              | nil => rfl
              | cons y ys =>
                rw [ha, hx0, hxs] at hca
                simp [canonNumeral] at hca
            rw [hx0, hxs]
            rfl
          · have hhd : (x :: xs).head? ≠ some '0' := by simp [hx0]
            have hdigA' : ∀ c ∈ x :: xs, isDigitCh c = true := by rw [← ha]; exact hdigA
            have hpos : 1 ≤ digitsVal (x :: xs) := by
              have hxd : isDigitCh x = true := hdigA' x (by simp)
              have := digitsVal_cons_pos x xs hxd hx0
              have h10 : (1:Nat) ≤ 10 ^ xs.length := Nat.one_le_pow _ _ (by norm_num)
              omega
            have hlen20 : (x :: xs).length ≤ 20 := by
              by_contra hcon
              push_neg at hcon
              have hxd : isDigitCh x = true := hdigA' x (by simp)
              have hge : 10 ^ xs.length ≤ digitsVal (x :: xs) := digitsVal_cons_pos x xs hxd hx0
              have h20 : (10:Nat) ^ 20 ≤ 10 ^ xs.length := by
                apply Nat.pow_le_pow_right (by norm_num)
                simp at hcon
                omega
              have hle_n : digitsVal (x :: xs) ≤ n := by
                rw [← hn, ← ha]
                have : digitsVal a ≤ digitsVal a * 100000000 := by
                  have : (1:Nat) ≤ 100000000 := by norm_num
                  calc digitsVal a = digitsVal a * 1 := by ring
                  _ ≤ digitsVal a * 100000000 := by gcongr
                omega
              have hnlt : n < 2 ^ 64 := by rw [← hn]; exact h2
              have : (10:Nat) ^ 20 ≤ n := by omega
              have hcontr : (2:Nat) ^ 64 < 10 ^ 20 := by norm_num
              omega
            rw [natToDigits, if_neg (by omega)]
            exact toDecimalAux_digits (x :: xs) hdigA' (by simp) hhd 20 hlen20
      have hdecomp : s.toList = a ++ '.' :: b := splitDots_pair hsp
      rw [formatUFix64, hdiv, hmod, hintpart, hfracpad, ← hdecomp]
      cases s
      rfl
    · rw [cadenceNewUFix64, hsp] at h; exact absurd h (by simp [parseParts])

/-- Witness for C1 at the concrete malformed inputs `"1.0"` (wrong digit
count) and `"-1.00000000"` (negative). -/
theorem toMinorUnits_rejects_malformed_witness :
    (∃ e, UFix64ToUInt64String (String.mk (['1'] ++ '.' :: ['0'])) = Except.error e) ∧
    (∃ e, UFix64ToUInt64String "-1.00000000" = Except.error e) :=
  ⟨toMinorUnits_rejects_malformed.1 ['1'] ['0'] (by decide) (by decide) (by decide),
   toMinorUnits_rejects_malformed.2 "-1.00000000" '-' (by decide) (by decide) (by decide)⟩

/-- Witness for C4 at the concrete valid input `"0.00000001"`, whose value
is 1 minor unit. -/
theorem toMinorUnits_roundtrip_witness :
    UFix64ToUInt64String "0.00000001" = Except.ok (formatNat 1) ∧ formatUFix64 1 = "0.00000001" :=
  toMinorUnits_roundtrip "0.00000001" 1 rfl

/-! ## Resolver: claims C2, C6 and C7 -/

/-- C6: for a block identifier with both index and hash absent,
`Validator.Block` (`Resolve`) returns the current head block's height and
hash as reported by the chain-access collaborator, and repeated calls
against an unchanged chain head return the same pair. -/
theorem resolve_latest (v : Validator) (last : Header)
    (h : v.accessAPI.getLatestBlockHeader = Except.ok last) :
    Validator.Block v ⟨none, ""⟩ = Except.ok (last.height, last.id) ∧
    ∀ w : Validator, w.accessAPI.getLatestBlockHeader = Except.ok last →
      Validator.Block w ⟨none, ""⟩ = Validator.Block v ⟨none, ""⟩ := by
  constructor
  · rw [Validator.Block, if_pos (by exact ⟨rfl, rfl⟩), h]
  · intro w hw
    rw [Validator.Block, if_pos (by exact ⟨rfl, rfl⟩), hw,
      Validator.Block, if_pos (by exact ⟨rfl, rfl⟩), h]

/-- C2: for every block identifier carrying an index (with a well-formed or
absent hash, so that the earlier hash-syntax check does not fire first),
`Validator.Block` (`Resolve`) accepts the index only if it lies within
`[firstKnownHeight, head]`: below the floor it fails with `InvalidBlock`
(too low) carrying the offending index and the floor (the source
hard-codes the floor to 0, so no `uint64` index is below it); above the
head it fails with `UnknownBlock` (too high) carrying the head height; and
success implies the index is within the bounds. -/
theorem resolve_index_bounds (v : Validator) (idx : Nat) (hash : String) (last : Header)
    (hhash : hash = "" ∨ validBlockHash hash = true)
    (hlast : v.accessAPI.getLatestBlockHeader = Except.ok last) :
    (idx < firstKnownHeight →
      Validator.Block v ⟨some idx, hash⟩ = Except.error (ResolveError.invalidBlock
        ⟨DescKind.blockTooLow,
         [DescField.fieldNat "block_index" idx,
          DescField.fieldNat "first_index" firstKnownHeight]⟩)) ∧
    (last.height < idx →
      Validator.Block v ⟨some idx, hash⟩ = Except.error (ResolveError.unknownBlock idx hash
        ⟨DescKind.blockTooHigh, [DescField.fieldNat "last_index" last.height]⟩)) ∧
    (∀ res, Validator.Block v ⟨some idx, hash⟩ = Except.ok res →
      firstKnownHeight ≤ idx ∧ idx ≤ last.height) := by
  have hne : ¬ ((⟨some idx, hash⟩ : BlockID).index = none ∧ (⟨some idx, hash⟩ : BlockID).hash = "") := by
    intro hcon
    simp at hcon
  have hok : ¬ ((⟨some idx, hash⟩ : BlockID).hash ≠ "" ∧ ¬ validBlockHash (⟨some idx, hash⟩ : BlockID).hash) := by
    rcases hhash with h | h
    · intro hcon; exact hcon.1 h
    · intro hcon; exact hcon.2 (by simp [h])
  refine ⟨?_, ?_, ?_⟩
  · intro hlow
    exact absurd hlow (by simp [firstKnownHeight])
  · intro hhigh
    rw [Validator.Block, if_neg hne, if_neg hok]
    simp only
    rw [if_neg (by simp [firstKnownHeight]), hlast]
    dsimp only
    rw [if_pos (by exact hhigh)]
  · intro res hres
    refine ⟨by simp [firstKnownHeight], ?_⟩
    by_contra hgt
    push_neg at hgt
    rw [Validator.Block, if_neg hne, if_neg hok] at hres
    simp only at hres
    rw [if_neg (by simp [firstKnownHeight]), hlast] at hres
    dsimp only at hres
    rw [if_pos (by exact hgt)] at hres
    exact absurd hres (by simp)

/-- C7: for every block identifier carrying both an index (within bounds)
and a syntactically valid hash that differs from the canonical hash of the
header fetched at that index, `Validator.Block` (`Resolve`) fails with
`InvalidBlock` (mismatch variant) carrying the index, the given hash and
the canonical hash. -/
theorem resolve_hash_mismatch (v : Validator) (idx : Nat) (hash : String)
    (last header : Header)
    (hvalid : validBlockHash hash = true)
    (hlast : v.accessAPI.getLatestBlockHeader = Except.ok last)
    (hle : idx ≤ last.height)
    (hheader : v.accessAPI.getBlockHeaderByHeight idx = Except.ok header)
    (hne : hash ≠ header.id) :
    Validator.Block v ⟨some idx, hash⟩ = Except.error (ResolveError.invalidBlock
      ⟨DescKind.blockMismatch,
       [DescField.fieldNat "block_index" idx,
        DescField.fieldString "block_hash" hash,
        DescField.fieldString "want_hash" header.id]⟩) := by
  have hanez : hash ≠ "" := by
    intro hcon
    rw [hcon] at hvalid
    simp [validBlockHash] at hvalid
  have hne0 : ¬ ((⟨some idx, hash⟩ : BlockID).index = none ∧ (⟨some idx, hash⟩ : BlockID).hash = "") := by
    intro hcon; simp at hcon
  have hok : ¬ ((⟨some idx, hash⟩ : BlockID).hash ≠ "" ∧ ¬ validBlockHash (⟨some idx, hash⟩ : BlockID).hash) := by
    intro hcon; exact hcon.2 (by simp [hvalid])
  rw [Validator.Block, if_neg hne0, if_neg hok]
  simp only
  rw [if_neg (by simp [firstKnownHeight]), hlast]
  dsimp only
  rw [if_neg (by omega)]
  rw [Validator.blockFinish, hheader]
  dsimp only
  rw [if_pos (by exact ⟨hanez, hne⟩)]

/-- Witness for C6 against the concrete snapshot with head (5, `sampleHash`). -/
theorem resolve_latest_witness : Validator.Block sampleValidator ⟨none, ""⟩ = Except.ok (5, sampleHash) :=
  (resolve_latest sampleValidator ⟨5, sampleHash⟩ rfl).1

/-- Witness for C2: height 7 is above the head height 5, so resolution
fails with `UnknownBlock` carrying the head height. -/
theorem resolve_index_bounds_witness : Validator.Block sampleValidator ⟨some 7, ""⟩
    = Except.error (ResolveError.unknownBlock 7 ""
        ⟨DescKind.blockTooHigh, [DescField.fieldNat "last_index" 5]⟩) :=
  (resolve_index_bounds sampleValidator 7 "" ⟨5, sampleHash⟩ (Or.inl rfl) rfl).2.1 (by decide)

/-- Witness for C7: `sampleHash` differs from the canonical id
`sampleHashB` at height 3. -/
theorem resolve_hash_mismatch_witness : Validator.Block sampleValidator ⟨some 3, sampleHash⟩
    = Except.error (ResolveError.invalidBlock
        ⟨DescKind.blockMismatch,
         [DescField.fieldNat "block_index" 3,
          DescField.fieldString "block_hash" sampleHash,
          DescField.fieldString "want_hash" sampleHashB]⟩) :=
  resolve_hash_mismatch sampleValidator 3 sampleHash ⟨5, sampleHash⟩ ⟨3, sampleHashB⟩
    (by decide) rfl (by decide) rfl (by decide)

/-! ## Generator: claims C5, C8 and C9 -/

/-- C8: for every symbol absent from the token registry, rendering (shown
for any template through `Generator.bytes`, hence for `GetBalance` and the
other operations) fails with the invalid-token-symbol error, and this
lookup is the only runtime failure mode: for every registered symbol
`GetBalance` succeeds and the rendered text contains the token's address
and balance-capability path verbatim. -/
theorem generator_symbol_lookup (g : Generator) (symbol : String) :
    (lookupAssoc g.params.tokens symbol = none →
      ∀ tmpl, Generator.bytes g tmpl symbol
        = Except.error ("could not compile template: " ++ ("invalid token symbol (" ++ symbol ++ ")"))) ∧
    (∀ token, lookupAssoc g.params.tokens symbol = some token →
      Generator.GetBalance g symbol = Except.ok (getBalanceTmpl g.params token) ∧
      SubSeg token.address.data (getBalanceTmpl g.params token).data ∧
      SubSeg token.balance.data (getBalanceTmpl g.params token).data) := by
  constructor
  · intro hnone tmpl
    rw [Generator.bytes, Generator.compile, hnone]
  · intro token hsome
    refine ⟨?_, ?_, ?_⟩
    · rw [Generator.GetBalance, Generator.bytes, Generator.compile, hsome]
    · refine ⟨("\nimport FungibleToken from 0x" ++ g.params.fungibleToken
        ++ "\nimport " ++ token.type ++ " from 0x").data, ?_, ?_⟩
      · exact ("\n\npub fun main(account: Address): UFix64 \x7b\n\n    let vaultRef = getAccount(account)\n        .getCapability("
          ++ token.balance
          ++ ")\n        .borrow<&" ++ token.type
          ++ ".Vault\x7bFungibleToken.Balance\x7d>()\n        ?? panic(\"Could not borrow Balance reference to the Vault\")\n\n    return vaultRef.balance\n\x7d\n").data
      · rw [getBalanceTmpl]
        simp only [String.data_append, List.append_assoc]
    · refine ⟨("\nimport FungibleToken from 0x" ++ g.params.fungibleToken
        ++ "\nimport " ++ token.type ++ " from 0x" ++ token.address
        ++ "\n\npub fun main(account: Address): UFix64 \x7b\n\n    let vaultRef = getAccount(account)\n        .getCapability(").data, ?_, ?_⟩
      · exact (")\n        .borrow<&" ++ token.type
          ++ ".Vault\x7bFungibleToken.Balance\x7d>()\n        ?? panic(\"Could not borrow Balance reference to the Vault\")\n\n    return vaultRef.balance\n\x7d\n").data
      · rw [getBalanceTmpl]
        simp only [String.data_append, List.append_assoc]

/-- C9: for every (chain identifier, contract address) pair absent from the
override table — unknown chain or unknown address — `Generator.Custom`
(`RenderCustom`) returns `(found = false, nil, nil)`, signalling
fall-through; for every pair present it returns `found = true` and renders
the override template exactly as the standard path (`Generator.bytes`)
does, propagating its result. -/
theorem custom_override_semantics (g : Generator) (symbol chainID address : String) :
    ((lookupAssoc customTemplates chainID = none →
        Generator.Custom g symbol chainID address = (false, none, none)) ∧
     (∀ cc, lookupAssoc customTemplates chainID = some cc →
        lookupAssoc cc address = none →
        Generator.Custom g symbol chainID address = (false, none, none))) ∧
    (∀ cc tmpl, lookupAssoc customTemplates chainID = some cc →
        lookupAssoc cc address = some tmpl →
        ((∀ b, Generator.bytes g tmpl symbol = Except.ok b →
           Generator.Custom g symbol chainID address = (true, some b, none)) ∧
         (∀ e, Generator.bytes g tmpl symbol = Except.error e →
           Generator.Custom g symbol chainID address = (true, none, some e)))) := by
  refine ⟨⟨?_, ?_⟩, ?_⟩
  · intro hnone
    rw [Generator.Custom, hnone]
  · intro cc hcc hnone
    rw [Generator.Custom, hcc]
    dsimp only
    rw [hnone]
  · intro cc tmpl hcc htmpl
    constructor
    · intro b hb
      rw [Generator.Custom, hcc]
      dsimp only
      rw [htmpl]
      dsimp only
      rw [hb]
    · intro e he
      rw [Generator.Custom, hcc]
      dsimp only
      rw [htmpl]
      dsimp only
      rw [he]

set_option maxRecDepth 100000 in
/-- C5 (divergence): the staked-balance script rendered for the registered
symbol `"FLOW"` contains the return expression
`return vaultBalance + stakedBalance`, referencing a `stakedBalance`
symbol the template never defines, and does not compute its return value
from the locally accumulated `totalTokens` total (no
`return vaultBalance + totalTokens` occurs).  This contradicts the claim,
which states the intended behaviour; the template computes `totalTokens`
and then never uses it. -/
theorem staked_balance_script_defect :
    ∃ s, Generator.GetStakedBalance sampleGenerator "FLOW" = Except.ok s ∧
      containsSubL "return vaultBalance + stakedBalance".data s.data = true ∧
      containsSubL "return vaultBalance + totalTokens".data s.data = false := by
  refine ⟨getStakedBalanceTmpl sampleParams sampleToken, rfl, ?_, ?_⟩ <;> decide

/-- Witness for C8: `"UNKNOWN"` is not registered and fails; `"FLOW"` is
registered and renders. -/
theorem generator_symbol_lookup_witness :
    Generator.GetBalance sampleGenerator "UNKNOWN"
      = Except.error ("could not compile template: "
          ++ ("invalid token symbol (" ++ "UNKNOWN" ++ ")")) ∧
    Generator.GetBalance sampleGenerator "FLOW"
      = Except.ok (getBalanceTmpl sampleParams sampleToken) :=
  ⟨(generator_symbol_lookup sampleGenerator "UNKNOWN").1 rfl getBalanceTmpl,
   ((generator_symbol_lookup sampleGenerator "FLOW").2 sampleToken rfl).1⟩

/-- Witness for C9: unknown chain and unknown address fall through; the
registered mainnet FlowSwapPair override renders. -/
theorem custom_override_semantics_witness :
    Generator.Custom sampleGenerator "FLOW" "flow-testnet" "c6c77b9f5c7a378f"
      = (false, none, none) ∧
    Generator.Custom sampleGenerator "FLOW" "flow-mainnet" "0000000000000000"
      = (false, none, none) ∧
    Generator.Custom sampleGenerator "FLOW" "flow-mainnet" "c6c77b9f5c7a378f"
      = (true, some (flowSwapPairTmpl sampleParams sampleToken), none) :=
  ⟨(custom_override_semantics sampleGenerator "FLOW" "flow-testnet" "c6c77b9f5c7a378f").1.1 rfl,
   (custom_override_semantics sampleGenerator "FLOW" "flow-mainnet" "0000000000000000").1.2
     mainnetContracts rfl rfl,
   ((custom_override_semantics sampleGenerator "FLOW" "flow-mainnet" "c6c77b9f5c7a378f").2
     mainnetContracts flowSwapPairTmpl rfl rfl).1 _ rfl⟩

/-! ## Normalizer: claims C3 and C10 -/

mutual
theorem flatten_eq_spec : ∀ v, covered v = true → flatten v = some (flattenSpec v)
  | .struct names fields, h => by
    have hlen : fields.length ≤ names.length := by
      simp [covered] at h; exact_mod_cast h.1
    have hl : coveredList fields = true := by simp [covered] at h; exact h.2
    rw [flatten, flattenSpec, flattenFields_eq_spec names fields hlen hl]
    rfl
  | .dict pairs, h => by
    have hp : coveredPairs pairs = true := by simpa [covered] using h
    rw [flatten, flattenSpec, flattenPairs_eq_spec pairs hp]; rfl
  | .array values, h => by
    have hv : coveredList values = true := by simpa [covered] using h
    rw [flatten, flattenSpec, flattenElems_eq_spec values hv]; rfl
  | .scalar r, _ => by rw [flatten, flattenSpec]; cases unquote r <;> rfl
theorem flattenFields_eq_spec : ∀ ns fs, fs.length ≤ ns.length → coveredList fs = true →
    flattenFields ns fs = some (flattenSpecFields ns fs)
  | _, [], _, _ => by rw [flattenFields, flattenSpecFields]
  | [], f :: fs, h, _ => by simp at h
  | n :: ns, f :: fs, h, hc => by
    have h1 : covered f = true := by simp [coveredList] at hc; exact hc.1
    have h2 : coveredList fs = true := by simp [coveredList] at hc; exact hc.2
    rw [flattenFields, flattenSpecFields, flatten_eq_spec f h1,
      flattenFields_eq_spec ns fs (by simpa using h) h2]
theorem flattenPairs_eq_spec : ∀ ps, coveredPairs ps = true →
    flattenPairs ps = some (flattenSpecPairs ps)
  | [], _ => by rw [flattenPairs, flattenSpecPairs]
  | (k, v) :: ps, hc => by
    have h1 : covered v = true := by simp [coveredPairs] at hc; exact hc.1
    have h2 : coveredPairs ps = true := by simp [coveredPairs] at hc; exact hc.2
    rw [flattenPairs, flattenSpecPairs, flatten_eq_spec v h1, flattenPairs_eq_spec ps h2]
theorem flattenElems_eq_spec : ∀ vs, coveredList vs = true →
    flattenElems vs = some (flattenSpecElems vs)
  | [], _ => by rw [flattenElems, flattenSpecElems]
  | v :: vs, hc => by
    have h1 : covered v = true := by simp [coveredList] at hc; exact hc.1
    have h2 : coveredList vs = true := by simp [coveredList] at hc; exact hc.2
    rw [flattenElems, flattenSpecElems, flatten_eq_spec v h1, flattenElems_eq_spec vs h2]
end

/-- C3: for every execution-result value — any nesting of records,
mappings, arrays and scalars satisfying the execution-result invariant
`covered` (cadence-decoded records always carry exactly as many field
values as declared names) — `flatten` terminates without any error
outcome and produces exactly the same-shaped tree described by the spec:
`flattenSpec`, which maps records to name-keyed mappings, mappings to
mappings keyed by the key's textual representation, arrays to lists in
source order, and scalars to their unquoted-or-raw textual
representation. -/
theorem flatten_total_shape (v : CValue) (h : covered v = true) :
    flatten v = some (flattenSpec v) :=
  flatten_eq_spec v h

/-- C10: `flatten` is panic-free exactly under the invariant that every
record carries at most as many field values as its struct type declares
field names: under `covered` it always returns a result, while for the
struct value with no declared names and one field value the record branch
indexes the declared-name list out of range (modelled as `none`) instead
of returning a result. -/
theorem flatten_needs_declared_names :
    (∀ v : CValue, covered v = true → (flatten v).isSome = true) ∧
    covered (CValue.struct [] [CValue.scalar "1"]) = false ∧
    flatten (CValue.struct [] [CValue.scalar "1"]) = none := by
  refine ⟨fun v h => by rw [flatten_eq_spec v h]; rfl, ?_, ?_⟩
  · simp [covered, coveredList]
  · simp [flatten, flattenFields]

/-- Witness for C3 at a concrete nested value: a record holding a quoted
scalar and a mapping containing an array. -/
theorem flatten_total_shape_witness :
    flatten (CValue.struct ["balance", "pairs"]
      [CValue.scalar "\"1.0\"",
       CValue.dict [(CValue.scalar "k", CValue.array [CValue.scalar "x"])]])
    = some (flattenSpec (CValue.struct ["balance", "pairs"]
      [CValue.scalar "\"1.0\"",
       CValue.dict [(CValue.scalar "k", CValue.array [CValue.scalar "x"])]])) :=
  flatten_total_shape _ (by simp [covered, coveredList, coveredPairs])

/-- Witness for C10 (first conjunct) at a concrete well-formed record. -/
theorem flatten_needs_declared_names_witness :
    (flatten (CValue.struct ["a"] [CValue.scalar "1"])).isSome = true :=
  flatten_needs_declared_names.1 _ (by simp [covered, coveredList])

end FlowRosetta
